import Mathlib

/-!
Verification of the TEC educational-platform repository against its
natural-language specification.

Part 1 embeds the frontend logic found in `src/frontend/src/App.js`:
the payment-status polling loop (`checkPaymentStatus`, lines 436-467)
and the subscription-activity predicate (`hasSubscription`, line 105).

Part 2 models the Workout Attempt & Progress Scoring subsystem.  Its
implementation (`backend/server.py`) is not part of the provided
sources, so those definitions are modelled from the specification text
(sections 3 and 4.1-4.4 of spec.md), as noted in their doc comments.

The file is organised as definitions first, followed by the supporting
lemmas and the claim theorems.
-/

namespace TEC

/- ------------------------------------------------------------------
   Payment-status polling loop, from `checkPaymentStatus` in
   src/frontend/src/App.js (lines 436-467).
   ------------------------------------------------------------------ -/

/-- Outcome of one HTTP request `GET /payment/status/{sessionId}`:
the JSON field `payment_status` equals `"paid"`, or it is something
else (still pending), or the request itself throws. -/
inductive PaymentPollReply where
  | paid
  | pending
  | failed
deriving DecidableEq

/-- Result of the whole polling loop: the success alert and redirect,
the timeout alert, or the silent abort in the `catch` branch. -/
inductive PollOutcome where
  | success
  | timedOut
  | aborted
deriving DecidableEq

/-- `const maxAttempts = 5` in `checkPaymentStatus`. -/
def paymentPollMaxAttempts : Nat := 5

/-- The fixed delay passed to `setTimeout(pollPayment, 2000)`. -/
def paymentPollDelayMs : Nat := 2000

/-- The recursive `pollPayment` closure.  `reply i` is the reply to the
`i`-th request (0-based).  Returns the outcome together with the total
number of requests issued.  Mirrors the source: on `paid` it stops with
success; on an exception it stops silently; otherwise it increments
`attempts` and retries only while `attempts < maxAttempts`, reporting a
timeout on the last attempt. -/
def pollPayment (reply : Nat → PaymentPollReply) (maxAttempts : Nat)
    (attempts : Nat) : PollOutcome × Nat :=
  match reply attempts with
  | .failed => (.aborted, attempts + 1)
  | .paid => (.success, attempts + 1)
  | .pending =>
    if h : attempts + 1 < maxAttempts then
      pollPayment reply maxAttempts (attempts + 1)
    else
      (.timedOut, attempts + 1)
termination_by maxAttempts - attempts
decreasing_by omega

/-- `checkPaymentStatus(sessionId)`: starts the poll with
`attempts = 0` and `maxAttempts = 5`. -/
def checkPaymentStatus (reply : Nat → PaymentPollReply) : PollOutcome × Nat :=
  pollPayment reply paymentPollMaxAttempts 0

/- ------------------------------------------------------------------
   `hasSubscription`, from src/frontend/src/App.js line 105:
   user?.subscription_type &&
     (!user?.subscription_expires ||
       new Date(user.subscription_expires) > new Date())
   ------------------------------------------------------------------ -/

/-- The fields of the `user` object that `hasSubscription` reads.
`subscription_expires` is modelled as a timestamp. -/
structure FrontUser where
  subscription_type : Option String
  subscription_expires : Option Int
deriving DecidableEq

/-- JavaScript truthiness of an optional string field: `null` /
`undefined` and the empty string are falsy. -/
def truthyStr : Option String → Bool
  | none => false
  | some s => !(s == "")

/-- `hasSubscription` from the `AuthProvider` value object.  `now` is
the timestamp of `new Date()`; the comparison on the expiry date is
strict. -/
def hasSubscription (now : Int) (u : FrontUser) : Bool :=
  truthyStr u.subscription_type &&
    (match u.subscription_expires with
     | none => true
     | some t => decide (now < t))

/- ------------------------------------------------------------------
   Workout Attempt & Progress Scoring subsystem.  The backend source
   (`backend/server.py`) is not among the provided files, so every
   definition below is modelled from the specification text, as its
   doc comment records.
   ------------------------------------------------------------------ -/

/-- Modelled from the spec: the fixed set of workout categories
(spec.md section 3, Workout "type"). -/
inductive WorkoutType where
  | patternRecognition
  | logicalSequences
  | puzzleSolving
  | reasoningChains
  | criticalThinking
  | problemDecomposition
deriving DecidableEq

/-- Modelled from the spec: the ordered difficulty scale
(beginner < intermediate < advanced). -/
inductive WorkoutDifficulty where
  | beginner
  | intermediate
  | advanced
deriving DecidableEq

/-- Modelled from the spec: the fixed enumeration of skill-area tags.
The spec fixes only that the enumeration is fixed, not its members;
these names stand in for the backend's `SkillArea` enum. -/
def validSkillAreas : List String :=
  ["observation", "deduction", "sequencing", "spatial_reasoning",
   "logical_analysis"]

/-- Modelled from the spec: a Workout definition (spec.md section 3):
identity, category, difficulty, target level band, prompt, ordered
answer choices, the correct choice, estimated completion time, and
skill-area tags. -/
structure Workout where
  id : String
  wtype : WorkoutType
  difficulty : WorkoutDifficulty
  level : String
  prompt : String
  choices : List String
  correctChoice : String
  estimatedMinutes : Nat
  skillAreas : List String
deriving DecidableEq

/-- Modelled from the spec: a WorkoutAttempt (spec.md section 3).  The
reference to the workout is modelled by embedding the workout value.
The attempt is open while `endTime = none` and closed once the end
timestamp is set by `submitAnswer`. -/
structure WorkoutAttempt where
  id : Nat
  learner : String
  workout : Workout
  startTime : Nat
  endTime : Option Nat
  hintsUsed : Nat
  submittedAnswer : Option String
  score : Nat
  correct : Bool
deriving DecidableEq

/-- Modelled from the spec: the key of a WorkoutProgress row —
(learner, workout type, difficulty, level) (spec.md section 4.4). -/
structure ProgKey where
  learner : String
  wtype : WorkoutType
  difficulty : WorkoutDifficulty
  level : String
deriving DecidableEq

/-- Modelled from the spec: one WorkoutProgress aggregate row
(spec.md section 3): attempt count, correct count, average score,
total time spent, last-activity timestamp. -/
structure ProgressRow where
  count : Nat
  correctCount : Nat
  averageScore : ℚ
  totalTimeSpent : Nat
  lastActivity : Nat
deriving DecidableEq

/-- Modelled from the spec: the error taxonomy of section 7 —
NotFound, InvalidState and ValidationError (which carries the list of
violated fields). -/
inductive WError where
  | notFound
  | invalidState
  | validationError (fields : List String)
deriving DecidableEq

/- ------------------------- Scoring Engine ------------------------- -/

/-- Modelled from the spec: the fixed per-hint penalty; the spec's
worked scenario uses 10 points per hint (spec.md sections 4.3, 8). -/
def hintPenalty : Nat := 10

/-- Modelled from the spec: the Scoring Engine with an explicit
penalty parameter (spec.md section 4.3).  `correct` iff the submitted
answer equals the workout's correct choice; base score 100 when
correct, 0 when incorrect; each hint subtracts `penalty` points,
floored at 0 (natural-number subtraction). -/
def scoreWith (penalty : Nat) (w : Workout) (submittedAnswer : String)
    (hintsUsed : Nat) : Nat × Bool :=
  if submittedAnswer = w.correctChoice then
    (100 - penalty * hintsUsed, true)
  else
    (0, false)

/-- Modelled from the spec: `score(workout, submittedAnswer,
hintsUsed)` with the configured penalty. -/
def score (w : Workout) (submittedAnswer : String) (hintsUsed : Nat) :
    Nat × Bool :=
  scoreWith hintPenalty w submittedAnswer hintsUsed

/- ------------------------- Workout Catalog ------------------------ -/

/-- Modelled from the spec: the authoring input to `createWorkout`
(spec.md section 4.1), carrying the same fields as a Workout. -/
structure WorkoutSpec where
  id : String
  wtype : WorkoutType
  difficulty : WorkoutDifficulty
  level : String
  prompt : String
  choices : List String
  correctChoice : String
  estimatedMinutes : Nat
  skillAreas : List String
deriving DecidableEq

/-- Modelled from the spec: the list of all violated fields of a
workout authoring input — the correct choice missing from the choices,
an empty choice set, and unknown skill-area tags (spec.md section
4.1).  All violations are collected, not just the first. -/
def violationFields (sp : WorkoutSpec) : List String :=
  (if sp.correctChoice ∈ sp.choices then [] else ["correctChoice"]) ++
  (if sp.choices = [] then ["choices"] else []) ++
  (if sp.skillAreas.all (fun t => decide (t ∈ validSkillAreas)) then []
   else ["skillAreas"])

/-- Modelled from the spec: `createWorkout(spec)` validates the
section-3 invariants and fails with a ValidationError listing every
violated field, otherwise creates the workout (spec.md section 4.1). -/
def createWorkout (sp : WorkoutSpec) : Except WError Workout :=
  match violationFields sp with
  | [] => .ok
      { id := sp.id, wtype := sp.wtype, difficulty := sp.difficulty,
        level := sp.level, prompt := sp.prompt, choices := sp.choices,
        correctChoice := sp.correctChoice,
        estimatedMinutes := sp.estimatedMinutes,
        skillAreas := sp.skillAreas }
  | f :: fs => .error (.validationError (f :: fs))

/-- Modelled from the spec: workout lookup by id in the catalog
(`getWorkout(id)`, spec.md section 4.1). -/
def getWorkout (cat : List Workout) (wId : String) : Option Workout :=
  match cat with
  | [] => none
  | w :: rest => if w.id = wId then some w else getWorkout rest wId

/- ------------------------- Attempt Ledger ------------------------- -/

/-- Modelled from the spec: lookup of an attempt by id in the ledger's
attempt store. -/
def lookupA (attemptId : Nat) :
    List (Nat × WorkoutAttempt) → Option WorkoutAttempt
  | [] => none
  | (k, a) :: rest =>
    if k = attemptId then some a else lookupA attemptId rest

/-- Modelled from the spec: in-place replacement of the attempt stored
under an id. -/
def setA (attemptId : Nat) (b : WorkoutAttempt) :
    List (Nat × WorkoutAttempt) → List (Nat × WorkoutAttempt)
  | [] => []
  | (k, a) :: rest =>
    if k = attemptId then (k, b) :: rest
    else (k, a) :: setA attemptId b rest

/-- Modelled from the spec: whether an attempt is the open attempt of
the given (learner, workout) pair. -/
def isOpenFor (learner wId : String) (a : WorkoutAttempt) : Bool :=
  a.learner == learner && a.workout.id == wId && a.endTime.isNone

/-- Modelled from the spec: find the open attempt for a (learner,
workout) pair, if any (spec.md section 4.2). -/
def findOpen (learner wId : String) :
    List (Nat × WorkoutAttempt) → Option (Nat × WorkoutAttempt)
  | [] => none
  | (k, a) :: rest =>
    if isOpenFor learner wId a then some (k, a)
    else findOpen learner wId rest

/-- Closed test: an attempt is closed once its end timestamp is set. -/
def isClosed (a : WorkoutAttempt) : Bool := a.endTime.isSome

/- ----------------------- Progress Aggregator ---------------------- -/

/-- Modelled from the spec: lookup of a progress row by key. -/
def lookupRow (k : ProgKey) :
    List (ProgKey × ProgressRow) → Option ProgressRow
  | [] => none
  | (k', r) :: rest => if k' = k then some r else lookupRow k rest

/-- Modelled from the spec: upsert of a progress row — replace the
existing row for the key, or append a new one. -/
def setRow (k : ProgKey) (r : ProgressRow) :
    List (ProgKey × ProgressRow) → List (ProgKey × ProgressRow)
  | [] => [(k, r)]
  | (k', r') :: rest =>
    if k' = k then (k, r) :: rest else (k', r') :: setRow k r rest

/-- The all-zero progress row used for a fresh key. -/
def zeroRow : ProgressRow := ⟨0, 0, 0, 0, 0⟩

/-- Modelled from the spec: the key of the progress row an attempt
contributes to — (learner, workout.type, workout.difficulty,
workout.level) (spec.md section 4.4). -/
def progKey (a : WorkoutAttempt) : ProgKey :=
  ⟨a.learner, a.workout.wtype, a.workout.difficulty, a.workout.level⟩

/-- Modelled from the spec: `recordCompletion(attempt)` (spec.md
section 4.4): upserts the row keyed by `progKey`: increments the
attempt count, increments the correct count if the attempt was
correct, recomputes the running average as
(oldAvg * oldCount + newScore) / newCount, adds the attempt duration
(end − start) to the total time, and sets last-activity to the end
timestamp. -/
def recordCompletion (a : WorkoutAttempt)
    (m : List (ProgKey × ProgressRow)) : List (ProgKey × ProgressRow) :=
  let k := progKey a
  let old := (lookupRow k m).getD zeroRow
  let endT := a.endTime.getD a.startTime
  setRow k
    { count := old.count + 1,
      correctCount := old.correctCount + (if a.correct then 1 else 0),
      averageScore :=
        (old.averageScore * (old.count : ℚ) + (a.score : ℚ)) /
          ((old.count : ℚ) + 1),
      totalTimeSpent := old.totalTimeSpent + (endT - a.startTime),
      lastActivity := endT } m

/- ------------------------- System state --------------------------- -/

/-- Modelled from the spec: the mutable state of the subsystem — a
logical clock supplying "now", the next fresh attempt id, the Attempt
Ledger's store, the aggregator's progress rows, and the feed of closed
attempts in order of closure (the recent-activity feed of section
4.4). -/
structure LedgerState where
  clock : Nat
  nextId : Nat
  attempts : List (Nat × WorkoutAttempt)
  progress : List (ProgKey × ProgressRow)
  recentClosed : List WorkoutAttempt
deriving DecidableEq

/-- The initial, empty state. -/
def initState : LedgerState := ⟨0, 0, [], [], []⟩

/-- Modelled from the spec: `startAttempt(learnerId, workoutId)`
(spec.md section 4.2): NotFound for an unknown workout; an existing
open attempt for the (learner, workout) pair is returned as is
(idempotent start); otherwise a fresh open attempt is created with
start timestamp = now and zero hints. -/
def startAttempt (cat : List Workout) (s : LedgerState)
    (learner wId : String) : Except WError (LedgerState × Nat) :=
  match getWorkout cat wId with
  | none => .error .notFound
  | some w =>
    match findOpen learner wId s.attempts with
    | some (k, _) => .ok (s, k)
    | none =>
      .ok ({ s with
              nextId := s.nextId + 1,
              attempts := s.attempts ++
                [(s.nextId,
                  { id := s.nextId, learner := learner, workout := w,
                    startTime := s.clock, endTime := none,
                    hintsUsed := 0, submittedAnswer := none,
                    score := 0, correct := false })] },
            s.nextId)

/-- Modelled from the spec: `recordHint(attemptId)` (spec.md section
4.2): increments the hint count of an open attempt; NotFound on an
unknown id, InvalidState once the attempt is closed. -/
def recordHint (s : LedgerState) (attemptId : Nat) :
    Except WError LedgerState :=
  match lookupA attemptId s.attempts with
  | none => .error .notFound
  | some a =>
    if a.endTime.isSome then .error .invalidState
    else .ok { s with
      attempts :=
        setA attemptId { a with hintsUsed := a.hintsUsed + 1 } s.attempts }

/-- Modelled from the spec: `submitAnswer(attemptId, answer)` (spec.md
section 4.2): NotFound on an unknown id, InvalidState once closed;
otherwise sets the end timestamp to now, records the answer, grades it
through the Scoring Engine, closes the attempt, and notifies the
Progress Aggregator (`recordCompletion`) and the recent-activity
feed. -/
def submitAnswer (s : LedgerState) (attemptId : Nat) (answer : String) :
    Except WError (LedgerState × WorkoutAttempt) :=
  match lookupA attemptId s.attempts with
  | none => .error .notFound
  | some a =>
    if a.endTime.isSome then .error .invalidState
    else
      let graded := score a.workout answer a.hintsUsed
      let closed : WorkoutAttempt :=
        { a with endTime := some s.clock, submittedAnswer := some answer,
                 score := graded.1, correct := graded.2 }
      .ok ({ s with
              attempts := setA attemptId closed s.attempts,
              progress := recordCompletion closed s.progress,
              recentClosed := s.recentClosed ++ [closed] },
           closed)

/-- The requests a caller can make of the subsystem. -/
inductive WOp where
  | start (learner wId : String)
  | hint (attemptId : Nat)
  | submit (attemptId : Nat) (answer : String)
deriving DecidableEq

/-- Whether an operation is a submit. -/
def isSubmitOp : WOp → Bool
  | .submit _ _ => true
  | _ => false

/-- Advance the logical clock by one step. -/
def tick (s : LedgerState) : LedgerState := { s with clock := s.clock + 1 }

/-- Apply one request to the state: a failed request leaves the data
unchanged (errors are surfaced to the caller, spec.md section 7), and
time advances by one tick per request. -/
def applyOp (cat : List Workout) (s : LedgerState) : WOp → LedgerState
  | .start learner wId =>
    tick (match startAttempt cat s learner wId with
          | .ok (s', _) => s'
          | .error _ => s)
  | .hint attemptId =>
    tick (match recordHint s attemptId with
          | .ok s' => s'
          | .error _ => s)
  | .submit attemptId answer =>
    tick (match submitAnswer s attemptId answer with
          | .ok (s', _) => s'
          | .error _ => s)

/-- Run a sequence of requests from a given state. -/
def runFrom (cat : List Workout) (s : LedgerState) (ops : List WOp) :
    LedgerState :=
  ops.foldl (applyOp cat) s

/-- Run a sequence of requests from the empty initial state. -/
def run (cat : List Workout) (ops : List WOp) : LedgerState :=
  runFrom cat initState ops

/-- The number of open attempts a (learner, workout) pair has in the
ledger. -/
def countOpenFor (s : LedgerState) (learner wId : String) : Nat :=
  (s.attempts.filter (fun p => isOpenFor learner wId p.2)).length

/- ------------------- Replay view of the ledger -------------------- -/

/-- The closed attempts stored in an attempt list, in store order. -/
def closedOf (l : List (Nat × WorkoutAttempt)) : List WorkoutAttempt :=
  (l.map Prod.snd).filter isClosed

/-- Every closed attempt in the ledger. -/
def closedAttempts (s : LedgerState) : List WorkoutAttempt :=
  closedOf s.attempts

/-- The end timestamp of a (closed) attempt. -/
def endKey (a : WorkoutAttempt) : Nat := a.endTime.getD 0

instance : DecidableRel (fun a b : WorkoutAttempt => endKey a ≤ endKey b) :=
  fun _ _ => Nat.decLe _ _

instance : IsTotal WorkoutAttempt (fun a b => endKey a ≤ endKey b) :=
  ⟨fun _ _ => Nat.le_total _ _⟩

instance : IsTrans WorkoutAttempt (fun a b => endKey a ≤ endKey b) :=
  ⟨fun _ _ _ => Nat.le_trans⟩

/-- Sort attempts by end timestamp (ascending). -/
def sortByEnd (l : List WorkoutAttempt) : List WorkoutAttempt :=
  List.insertionSort (fun a b => endKey a ≤ endKey b) l

/-- The attempts belonging to one learner. -/
def attemptsOf (learner : String) :
    List WorkoutAttempt → List WorkoutAttempt
  | [] => []
  | a :: rest =>
    if a.learner = learner then a :: attemptsOf learner rest
    else attemptsOf learner rest

/-- The progress rows belonging to one learner. -/
def rowsFor (learner : String) :
    List (ProgKey × ProgressRow) → List (ProgKey × ProgressRow)
  | [] => []
  | (k, r) :: rest =>
    if k.learner = learner then (k, r) :: rowsFor learner rest
    else rowsFor learner rest

/-- Modelled from the spec: `getProgress(learnerId)` — the learner's
progress rows (spec.md section 4.4). -/
def getProgress (s : LedgerState) (learner : String) :
    List (ProgKey × ProgressRow) :=
  rowsFor learner s.progress

/-- Modelled from the spec: the replay view — discard all progress
state and fold every closed attempt of the learner, in end-timestamp
order, through `recordCompletion` (spec.md section 4.4). -/
def replayProgress (learner : String) (atts : List WorkoutAttempt) :
    List (ProgKey × ProgressRow) :=
  (sortByEnd (attemptsOf learner atts)).foldl
    (fun m a => recordCompletion a m) []

/-- The run invariant tying the incremental aggregate to the feed of
closed attempts: the progress rows are the fold of the closure-ordered
feed, the feed is a permutation of the ledger's closed attempts, its
end timestamps strictly increase, and all of them lie in the past. -/
structure Inv (s : LedgerState) : Prop where
  progEq : s.progress =
    s.recentClosed.foldl (fun m a => recordCompletion a m) []
  permClosed : (closedAttempts s).Perm s.recentClosed
  sortedClosed : s.recentClosed.Pairwise (fun a b => endKey a < endKey b)
  bounded : ∀ a ∈ s.recentClosed, endKey a < s.clock

/- ---------------------- Concrete sample data ---------------------- -/

/-- The spec's scenario workout W1 (spec.md section 8). -/
def sampleWorkout : Workout :=
  { id := "w1", wtype := .reasoningChains, difficulty := .intermediate,
    level := "9-12", prompt := "Which letter continues the chain?",
    choices := ["A", "B", "C"], correctChoice := "B",
    estimatedMinutes := 10, skillAreas := ["deduction"] }

/-- A one-workout catalog. -/
def sampleCatalog : List Workout := [sampleWorkout]

/-- The open attempt created by starting `sampleWorkout` for learner
"L" on the empty state. -/
def sampleOpenAttempt : WorkoutAttempt :=
  { id := 0, learner := "L", workout := sampleWorkout, startTime := 0,
    endTime := none, hintsUsed := 0, submittedAnswer := none,
    score := 0, correct := false }

/-- The state after that start. -/
def sampleStarted : LedgerState :=
  ⟨0, 1, [(0, sampleOpenAttempt)], [], []⟩

/-- The closed attempt produced by submitting "B" on it. -/
def sampleClosedAttempt : WorkoutAttempt :=
  { id := 0, learner := "L", workout := sampleWorkout, startTime := 0,
    endTime := some 0, hintsUsed := 0, submittedAnswer := some "B",
    score := 100, correct := true }

/-- The state after that submit. -/
def sampleClosedState : LedgerState :=
  ⟨0, 1, [(0, sampleClosedAttempt)],
    recordCompletion sampleClosedAttempt [], [sampleClosedAttempt]⟩

/-- An authoring input violating all three creation invariants. -/
def badSpec : WorkoutSpec :=
  { id := "w-bad", wtype := .puzzleSolving, difficulty := .beginner,
    level := "5-8", prompt := "?", choices := [], correctChoice := "B",
    estimatedMinutes := 5, skillAreas := ["time_travel"] }

/-- First of three closed attempts in one bucket: score 90, correct. -/
def sampleA1 : WorkoutAttempt :=
  { id := 10, learner := "L", workout := sampleWorkout, startTime := 0,
    endTime := some 1, hintsUsed := 1, submittedAnswer := some "B",
    score := 90, correct := true }

/-- Second closed attempt in the bucket: score 0, incorrect. -/
def sampleA2 : WorkoutAttempt :=
  { id := 11, learner := "L", workout := sampleWorkout, startTime := 2,
    endTime := some 3, hintsUsed := 0, submittedAnswer := some "A",
    score := 0, correct := false }

/-- Third closed attempt in the bucket: score 70, correct. -/
def sampleA3 : WorkoutAttempt :=
  { id := 12, learner := "L", workout := sampleWorkout, startTime := 4,
    endTime := some 5, hintsUsed := 3, submittedAnswer := some "B",
    score := 70, correct := true }

/- ==================================================================
   Lemmas and claim theorems.
   ================================================================== -/

/- Supporting lemmas for the polling loop. -/

lemma pollPayment_count_le (reply : Nat → PaymentPollReply) (m : Nat) :
    ∀ k a, m - a ≤ k → a < m → (pollPayment reply m a).2 ≤ m := by
  intro k
  induction k with
  | zero => intro a hk ha; omega
  | succ k ih =>
    intro a hk ha
    rw [pollPayment]
    cases reply a with
    | failed => simpa using ha
    | paid => simpa using ha
    | pending =>
      by_cases h : a + 1 < m
      · simp only [h, dif_pos]
        exact ih (a + 1) (by omega) h
      · simp only [h, dif_neg, not_false_iff]
        omega

lemma pollPayment_pending_timedOut (reply : Nat → PaymentPollReply) (m : Nat) :
    ∀ k a, m - a ≤ k → a < m → (∀ i, i < m → reply i = .pending) →
      (pollPayment reply m a).1 = .timedOut := by
  intro k
  induction k with
  | zero => intro a hk ha; omega
  | succ k ih =>
    intro a hk ha hp
    rw [pollPayment]
    rw [hp a ha]
    by_cases h : a + 1 < m
    · simp only [h, dif_pos]
      exact ih (a + 1) (by omega) h hp
    · simp [h]

/-- C1: the payment-status polling loop started for a session issues a
bounded number of requests — at most `maxAttempts = 5`, each retry
scheduled after the fixed 2000 ms delay — and whenever the status has
not become `paid` by the final attempt the loop surfaces the timeout
alert to the caller; it never retries an unbounded number of times. -/
theorem checkPaymentStatus_bounded_timeout (reply : Nat → PaymentPollReply) :
    (checkPaymentStatus reply).2 ≤ paymentPollMaxAttempts ∧
    ((∀ i, i < paymentPollMaxAttempts → reply i = .pending) →
      (checkPaymentStatus reply).1 = .timedOut) ∧
    paymentPollMaxAttempts = 5 ∧ paymentPollDelayMs = 2000 := by
  refine ⟨?_, ?_, rfl, rfl⟩
  · exact pollPayment_count_le reply paymentPollMaxAttempts
      paymentPollMaxAttempts 0 (by omega) (by simp [paymentPollMaxAttempts])
  · intro hp
    exact pollPayment_pending_timedOut reply paymentPollMaxAttempts
      paymentPollMaxAttempts 0 (by omega) (by simp [paymentPollMaxAttempts]) hp

/-- Witness for C1: with every reply still pending, the poll reports a
timeout. -/
theorem checkPaymentStatus_bounded_timeout_witness :
    (checkPaymentStatus (fun _ => PaymentPollReply.pending)).1 =
      PollOutcome.timedOut :=
  (checkPaymentStatus_bounded_timeout (fun _ => PaymentPollReply.pending)).2.1
    (fun _ _ => rfl)

/-- C10: the frontend treats a user as actively subscribed iff
`subscription_type` is set (truthy) and `subscription_expires` is
either absent or strictly later than the current time; in particular a
user whose expiry lies in the past is treated as unsubscribed even
though `subscription_type` is still set. -/
theorem hasSubscription_iff (now : Int) (u : FrontUser) :
    (hasSubscription now u = true ↔
      (truthyStr u.subscription_type = true ∧
        (u.subscription_expires = none ∨
          ∃ t, u.subscription_expires = some t ∧ now < t))) ∧
    (∀ t, u.subscription_expires = some t → t < now →
      hasSubscription now u = false) := by
  constructor
  · unfold hasSubscription
    cases h : u.subscription_expires with
    | none => simp
    | some t =>
      simp only [Bool.and_eq_true, decide_eq_true_eq]
      constructor
      · rintro ⟨h1, h2⟩
        exact ⟨h1, Or.inr ⟨t, rfl, h2⟩⟩
      · rintro ⟨h1, h2 | ⟨t', ht', hlt⟩⟩
        · exact absurd h2 (by simp)
        · cases Option.some.inj (ht' ▸ rfl : some t' = some t)
          exact ⟨h1, hlt⟩
  · intro t ht hlt
    unfold hasSubscription
    rw [ht]
    simp only [Bool.and_eq_false_iff]
    right
    simpa using (by omega : ¬ now < t)

/-- Witness for C10: a user whose subscription expired (expiry 50,
current time 100) is unsubscribed despite a set subscription type. -/
theorem hasSubscription_iff_witness :
    hasSubscription 100 ⟨some "monthly", some 50⟩ = false :=
  (hasSubscription_iff 100 ⟨some "monthly", some 50⟩).2 50 rfl (by omega)

/-- C3: `score` returns a score in 0–100 (a natural number, hence
nonnegative) and a correctness flag that is true iff the submitted
answer equals the workout's correct choice; the base score is 100 when
correct (no hints) and 0 when incorrect, with no partial credit for
wrong answers. -/
theorem score_contract (w : Workout) (a : String) (h : Nat) :
    (score w a h).1 ≤ 100 ∧
    ((score w a h).2 = true ↔ a = w.correctChoice) ∧
    (a = w.correctChoice → score w a 0 = (100, true)) ∧
    (a ≠ w.correctChoice → score w a h = (0, false)) := by
  unfold score scoreWith
  by_cases hc : a = w.correctChoice
  · simp [hc]
  · simp [hc]

/-- Witness for C3: submitting the wrong choice "A" on the sample
workout with no hints scores 0 with correct = false. -/
theorem score_contract_witness :
    score sampleWorkout "A" 0 = (0, false) :=
  (score_contract sampleWorkout "A" 0).2.2.2 (by decide)

/-- C5: for a correct submission each hint subtracts the fixed penalty
from 100, floored at 0 (natural subtraction), so the score is
monotonically non-increasing in the hint count; an incorrect answer
scores 0 regardless of hints; with the configured 10-point penalty,
one hint on a correct answer yields 90. -/
theorem scoreWith_hint_penalty (p h h' : Nat) (w : Workout) (a : String) :
    (h ≤ h' → (scoreWith p w a h').1 ≤ (scoreWith p w a h).1) ∧
    (a = w.correctChoice → (scoreWith p w a h).1 = 100 - p * h) ∧
    (a ≠ w.correctChoice → (scoreWith p w a h).1 = 0) ∧
    (a = w.correctChoice → (score w a 1).1 = 90) := by
  by_cases hc : a = w.correctChoice
  · refine ⟨fun hle => ?_, fun _ => ?_, fun hn => absurd hc hn, fun _ => ?_⟩
    · simp only [scoreWith, if_pos hc]
      exact Nat.sub_le_sub_left (Nat.mul_le_mul_left p hle) 100
    · simp [scoreWith, if_pos hc]
    · simp [score, scoreWith, hintPenalty, if_pos hc]
  · refine ⟨fun _ => ?_, fun he => absurd he hc, fun _ => ?_,
      fun he => absurd he hc⟩
    · simp [scoreWith, if_neg hc]
    · simp [scoreWith, if_neg hc]

/-- Witness for C5: on the sample workout, two hints score no more
than one hint, and one hint on the correct answer "B" scores 90. -/
theorem scoreWith_hint_penalty_witness :
    (score sampleWorkout "B" 2).1 ≤ (score sampleWorkout "B" 1).1 ∧
    (score sampleWorkout "B" 1).1 = 90 :=
  ⟨(scoreWith_hint_penalty hintPenalty 1 2 sampleWorkout "B").1
      (by omega),
   (scoreWith_hint_penalty hintPenalty 1 2 sampleWorkout "B").2.2.2 rfl⟩

/-- C9: `score` is a pure, deterministic function — two evaluations on
identical inputs yield the same (score, correct) pair; as a Lean
function it has no effects on any state. -/
theorem score_deterministic (w w' : Workout) (a a' : String)
    (h h' : Nat) (hw : w = w') (ha : a = a') (hh : h = h') :
    score w a h = score w' a' h' := by
  subst hw; subst ha; subst hh; rfl

/-- Witness for C9: two evaluations on the same concrete inputs
agree. -/
theorem score_deterministic_witness :
    score sampleWorkout "B" 1 = score sampleWorkout "B" 1 :=
  score_deterministic sampleWorkout sampleWorkout "B" "B" 1 1 rfl rfl rfl

/- Supporting lemma for C8: membership in the violation list. -/

lemma mem_violationFields (sp : WorkoutSpec) :
    ("correctChoice" ∈ violationFields sp ↔
      sp.correctChoice ∉ sp.choices) ∧
    ("choices" ∈ violationFields sp ↔ sp.choices = []) ∧
    ("skillAreas" ∈ violationFields sp ↔
      ∃ t ∈ sp.skillAreas, t ∉ validSkillAreas) ∧
    (violationFields sp = [] ↔
      (sp.correctChoice ∈ sp.choices ∧ sp.choices ≠ [] ∧
        ∀ t ∈ sp.skillAreas, t ∈ validSkillAreas)) := by
  unfold violationFields
  by_cases h1 : sp.correctChoice ∈ sp.choices <;>
    by_cases h2 : sp.choices = [] <;>
      by_cases h3 : sp.skillAreas.all (fun t => decide (t ∈ validSkillAreas)) <;>
        simp_all [List.all_eq_true]

/-- C8: `createWorkout` validates the creation invariants and on any
violation fails with a ValidationError listing every violated field —
the missing correct choice, the empty choice set, and unknown
skill-area tags — rather than stopping at the first; consequently
every workout it creates has its correct choice among its choices. -/
theorem createWorkout_validates (sp : WorkoutSpec) :
    (∀ w, createWorkout sp = .ok w →
      w.correctChoice ∈ w.choices ∧ w.choices ≠ [] ∧
        ∀ t ∈ w.skillAreas, t ∈ validSkillAreas) ∧
    (∀ fs, createWorkout sp = .error (.validationError fs) →
      (("correctChoice" ∈ fs ↔ sp.correctChoice ∉ sp.choices) ∧
       ("choices" ∈ fs ↔ sp.choices = []) ∧
       ("skillAreas" ∈ fs ↔ ∃ t ∈ sp.skillAreas, t ∉ validSkillAreas))) ∧
    ((sp.correctChoice ∉ sp.choices ∨ sp.choices = [] ∨
        ∃ t ∈ sp.skillAreas, t ∉ validSkillAreas) ↔
      ∃ fs, createWorkout sp = .error (.validationError fs)) := by
  have hm := mem_violationFields sp
  cases hv : violationFields sp with
  | nil =>
    have hok := hm.2.2.2.mp hv
    refine ⟨?_, ?_, ?_⟩
    · intro w hw
      simp only [createWorkout, hv] at hw
      cases hw
      exact hok
    · intro fs hfs
      simp [createWorkout, hv] at hfs
    · constructor
      · rintro (h | h | ⟨t, ht, hterr⟩)
        · exact absurd hok.1 h
        · exact absurd h hok.2.1
        · exact absurd (hok.2.2 t ht) hterr
      · rintro ⟨fs, hfs⟩
        simp [createWorkout, hv] at hfs
  | cons f fs' =>
    refine ⟨?_, ?_, ?_⟩
    · intro w hw
      simp [createWorkout, hv] at hw
    · intro fs hfs
      simp only [createWorkout, hv] at hfs
      cases hfs
      exact ⟨hv ▸ hm.1, hv ▸ hm.2.1, hv ▸ hm.2.2.1⟩
    · constructor
      · intro _
        exact ⟨f :: fs', by simp [createWorkout, hv]⟩
      · intro _
        by_contra hno
        push_neg at hno
        have hnil : violationFields sp = [] :=
          hm.2.2.2.mpr ⟨hno.1, hno.2.1, hno.2.2⟩
        rw [hnil] at hv
        exact List.noConfusion hv

/-- Witness for C8: the all-violating authoring input is rejected with
all three fields listed; "choices" is among them. -/
theorem createWorkout_validates_witness :
    "choices" ∈ ["correctChoice", "choices", "skillAreas"] :=
  ((createWorkout_validates badSpec).2.1
      ["correctChoice", "choices", "skillAreas"] rfl).2.1.mpr rfl

/- Supporting lemmas on the ledger's association lists. -/

lemma lookupA_append_left (attemptId : Nat) (a : WorkoutAttempt)
    (l' : List (Nat × WorkoutAttempt)) :
    ∀ l, lookupA attemptId l = some a →
      lookupA attemptId (l ++ l') = some a := by
  intro l
  induction l with
  | nil => intro h; simp [lookupA] at h
  | cons p rest ih =>
    intro h
    obtain ⟨k, b⟩ := p
    by_cases hk : k = attemptId
    · simp only [lookupA, if_pos hk] at h
      simp only [List.cons_append, lookupA, if_pos hk]
      exact h
    · simp only [lookupA, if_neg hk] at h
      simp only [List.cons_append, lookupA, if_neg hk]
      exact ih h

lemma lookupA_setA_self (attemptId : Nat) (b : WorkoutAttempt) :
    ∀ (l : List (Nat × WorkoutAttempt)) (a : WorkoutAttempt),
      lookupA attemptId l = some a →
      lookupA attemptId (setA attemptId b l) = some b := by
  intro l
  induction l with
  | nil => intro a h; simp [lookupA] at h
  | cons p rest ih =>
    intro a h
    obtain ⟨k, c⟩ := p
    by_cases hk : k = attemptId
    · simp [setA, if_pos hk, lookupA, hk]
    · simp only [lookupA, if_neg hk] at h
      simp only [setA, if_neg hk, lookupA, if_neg hk]
      exact ih a h

lemma lookupA_setA_ne (attemptId i : Nat) (b : WorkoutAttempt)
    (hne : i ≠ attemptId) :
    ∀ l, lookupA attemptId (setA i b l) = lookupA attemptId l := by
  intro l
  induction l with
  | nil => simp [setA]
  | cons p rest ih =>
    obtain ⟨k, c⟩ := p
    by_cases hk : k = i
    · have hka : ¬ k = attemptId := by rw [hk]; exact hne
      simp [setA, if_pos hk, lookupA, if_neg hka]
    · simp only [setA, if_neg hk, lookupA]
      by_cases hka : k = attemptId
      · simp [if_pos hka]
      · simp only [if_neg hka]
        exact ih

/- Supporting lemmas on the closed-attempt view. -/

lemma closedOf_append (l l' : List (Nat × WorkoutAttempt)) :
    closedOf (l ++ l') = closedOf l ++ closedOf l' := by
  simp [closedOf, List.filter_append]

lemma closedOf_setA_open (attemptId : Nat) (b : WorkoutAttempt)
    (hb : isClosed b = false) :
    ∀ (l : List (Nat × WorkoutAttempt)) (a : WorkoutAttempt),
      lookupA attemptId l = some a → isClosed a = false →
      closedOf (setA attemptId b l) = closedOf l := by
  intro l
  induction l with
  | nil => intro a h; simp [lookupA] at h
  | cons p rest ih =>
    intro a h ha
    obtain ⟨k, c⟩ := p
    by_cases hk : k = attemptId
    · simp only [lookupA, if_pos hk] at h
      cases h
      simp [setA, if_pos hk, closedOf, List.filter_cons, hb, ha]
    · simp only [lookupA, if_neg hk] at h
      have ihr := ih a h ha
      simp only [closedOf] at ihr
      simp only [setA, if_neg hk, closedOf, List.map_cons, List.filter_cons]
      cases hcc : isClosed c <;> simp [hcc, ihr]

lemma closedOf_setA_closed (attemptId : Nat) (b : WorkoutAttempt)
    (hb : isClosed b = true) :
    ∀ (l : List (Nat × WorkoutAttempt)) (a : WorkoutAttempt),
      lookupA attemptId l = some a → isClosed a = false →
      (closedOf (setA attemptId b l)).Perm (b :: closedOf l) := by
  intro l
  induction l with
  | nil => intro a h; simp [lookupA] at h
  | cons p rest ih =>
    intro a h ha
    obtain ⟨k, c⟩ := p
    by_cases hk : k = attemptId
    · simp only [lookupA, if_pos hk] at h
      cases h
      simp [setA, if_pos hk, closedOf, List.filter_cons, hb, ha]
    · simp only [lookupA, if_neg hk] at h
      have ihr := ih a h ha
      simp only [closedOf] at ihr
      simp only [setA, if_neg hk, closedOf, List.map_cons, List.filter_cons]
      cases hcc : isClosed c
      · simpa [hcc] using ihr
      · simp only [hcc, if_pos]
        exact (ihr.cons c).trans (List.Perm.swap b c _)

/- Supporting lemmas on open-attempt search. -/

lemma getWorkout_id (wId : String) :
    ∀ (cat : List Workout) (w : Workout),
      getWorkout cat wId = some w → w.id = wId := by
  intro cat
  induction cat with
  | nil => intro w h; simp [getWorkout] at h
  | cons w0 rest ih =>
    intro w h
    by_cases hid : w0.id = wId
    · simp only [getWorkout, if_pos hid] at h
      cases h
      exact hid
    · simp only [getWorkout, if_neg hid] at h
      exact ih w h

lemma findOpen_append_none (learner wId : String)
    (ys : List (Nat × WorkoutAttempt)) :
    ∀ xs, findOpen learner wId xs = none →
      findOpen learner wId (xs ++ ys) = findOpen learner wId ys := by
  intro xs
  induction xs with
  | nil => intro _; simp
  | cons p rest ih =>
    intro h
    obtain ⟨k, a⟩ := p
    by_cases ho : isOpenFor learner wId a
    · simp [findOpen, ho] at h
    · simp only [findOpen, if_neg ho] at h
      simp only [List.cons_append, findOpen, if_neg ho]
      exact ih h

lemma findOpen_filter_nil (learner wId : String) :
    ∀ xs, findOpen learner wId xs = none →
      xs.filter (fun p => isOpenFor learner wId p.2) = [] := by
  intro xs
  induction xs with
  | nil => intro _; rfl
  | cons p rest ih =>
    intro h
    obtain ⟨k, a⟩ := p
    by_cases ho : isOpenFor learner wId a
    · simp [findOpen, ho] at h
    · simp only [findOpen, if_neg ho] at h
      simpa [List.filter_cons, ho] using ih h

lemma findOpen_mem (learner wId : String) :
    ∀ xs (k : Nat) (a : WorkoutAttempt),
      findOpen learner wId xs = some (k, a) →
      (k, a) ∈ xs ∧ isOpenFor learner wId a = true := by
  intro xs
  induction xs with
  | nil => intro k a h; simp [findOpen] at h
  | cons p rest ih =>
    intro k a h
    obtain ⟨k', a'⟩ := p
    by_cases ho : isOpenFor learner wId a'
    · simp only [findOpen, if_pos ho] at h
      cases h
      exact ⟨List.mem_cons_self _ _, ho⟩
    · simp only [findOpen, if_neg ho] at h
      obtain ⟨hm, hop⟩ := ih k a h
      exact ⟨List.mem_cons_of_mem _ hm, hop⟩

/-- C6: `startAttempt` is idempotent — a second start for the same
(learner, workout) pair without an intervening submit returns the same
attempt id and leaves the state unchanged, and a start never creates a
second open attempt for the pair: the count of open attempts becomes
`max (previous count) 1`. -/
theorem startAttempt_idempotent (cat : List Workout) (s s₁ : LedgerState)
    (learner wId : String) (attemptId : Nat)
    (h : startAttempt cat s learner wId = .ok (s₁, attemptId)) :
    startAttempt cat s₁ learner wId = .ok (s₁, attemptId) ∧
    countOpenFor s₁ learner wId = max (countOpenFor s learner wId) 1 := by
  unfold startAttempt at h
  cases hw : getWorkout cat wId with
  | none => rw [hw] at h; exact Except.noConfusion h
  | some w =>
    rw [hw] at h
    cases hf : findOpen learner wId s.attempts with
    | some p =>
      obtain ⟨k, a⟩ := p
      rw [hf] at h
      obtain ⟨rfl, rfl⟩ : s = s₁ ∧ k = attemptId := by
        cases h; exact ⟨rfl, rfl⟩
      constructor
      · unfold startAttempt
        rw [hw, hf]
      · obtain ⟨hm, hop⟩ := findOpen_mem learner wId s.attempts k a hf
        have hmem : (k, a) ∈ s.attempts.filter
            (fun p => isOpenFor learner wId p.2) :=
          List.mem_filter.mpr ⟨hm, hop⟩
        have hpos : 0 < countOpenFor s learner wId := by
          unfold countOpenFor
          exact List.length_pos.mpr (fun hnil => by simp [hnil] at hmem)
        omega
    | none =>
      rw [hf] at h
      cases h
      have hone : isOpenFor learner wId
          { id := s.nextId, learner := learner, workout := w,
            startTime := s.clock, endTime := none, hintsUsed := 0,
            submittedAnswer := none, score := 0, correct := false } = true := by
        simp [isOpenFor, getWorkout_id wId cat w hw]
      constructor
      · unfold startAttempt
        rw [hw]
        rw [findOpen_append_none learner wId _ s.attempts hf]
        simp [findOpen, hone]
      · unfold countOpenFor
        simp only [List.filter_append]
        rw [findOpen_filter_nil learner wId s.attempts hf]
        simp [List.filter_cons, hone]

/-- Witness for C6: starting the sample workout twice for learner "L"
returns attempt id 0 both times with the state unchanged. -/
theorem startAttempt_idempotent_witness :
    startAttempt sampleCatalog sampleStarted "L" "w1" =
      .ok (sampleStarted, 0) :=
  (startAttempt_idempotent sampleCatalog initState sampleStarted
    "L" "w1" 0 rfl).1

/- Supporting lemmas: a closed attempt stays closed under every
operation, and only a submit can close an open attempt. -/

lemma closed_persists_applyOp (cat : List Workout) (s : LedgerState)
    (op : WOp) (attemptId : Nat) (a : WorkoutAttempt)
    (h : lookupA attemptId s.attempts = some a) (hc : isClosed a = true) :
    ∃ b, lookupA attemptId (applyOp cat s op).attempts = some b ∧
      isClosed b = true := by
  cases op with
  | start learner wId =>
    simp only [applyOp, startAttempt]
    cases hw : getWorkout cat wId with
    | none => exact ⟨a, h, hc⟩
    | some w =>
      cases hf : findOpen learner wId s.attempts with
      | some p =>
        obtain ⟨k, b⟩ := p
        exact ⟨a, h, hc⟩
      | none => exact ⟨a, lookupA_append_left attemptId a _ s.attempts h, hc⟩
  | hint i =>
    simp only [applyOp, recordHint]
    cases hl : lookupA i s.attempts with
    | none => exact ⟨a, h, hc⟩
    | some c =>
      simp only []
      by_cases hcs : c.endTime.isSome = true
      · rw [if_pos hcs]
        exact ⟨a, h, hc⟩
      · rw [if_neg hcs]
        by_cases hid : i = attemptId
        · subst hid
          rw [h] at hl
          cases hl
          exact absurd hc hcs
        · refine ⟨a, ?_, hc⟩
          show lookupA attemptId (setA i _ s.attempts) = some a
          rw [lookupA_setA_ne attemptId i _ hid s.attempts]
          exact h
  | submit i answer =>
    simp only [applyOp, submitAnswer]
    cases hl : lookupA i s.attempts with
    | none => exact ⟨a, h, hc⟩
    | some c =>
      simp only []
      by_cases hcs : c.endTime.isSome = true
      · rw [if_pos hcs]
        exact ⟨a, h, hc⟩
      · rw [if_neg hcs]
        by_cases hid : i = attemptId
        · subst hid
          rw [h] at hl
          cases hl
          exact absurd hc hcs
        · refine ⟨a, ?_, hc⟩
          show lookupA attemptId (setA i _ s.attempts) = some a
          rw [lookupA_setA_ne attemptId i _ hid s.attempts]
          exact h

lemma closed_persists_runFrom (cat : List Workout) :
    ∀ (ops : List WOp) (s : LedgerState) (attemptId : Nat)
      (a : WorkoutAttempt),
      lookupA attemptId s.attempts = some a → isClosed a = true →
      ∃ b, lookupA attemptId (runFrom cat s ops).attempts = some b ∧
        isClosed b = true := by
  intro ops
  induction ops with
  | nil => intro s attemptId a h hc; exact ⟨a, h, hc⟩
  | cons op rest ih =>
    intro s attemptId a h hc
    obtain ⟨b, hb, hcb⟩ := closed_persists_applyOp cat s op attemptId a h hc
    exact ih (applyOp cat s op) attemptId b hb hcb

lemma open_persists_applyOp (cat : List Workout) (s : LedgerState)
    (op : WOp) (attemptId : Nat) (b : WorkoutAttempt)
    (hop : isSubmitOp op = false)
    (h : lookupA attemptId s.attempts = some b)
    (hb : isClosed b = false) :
    ∃ b', lookupA attemptId (applyOp cat s op).attempts = some b' ∧
      isClosed b' = false := by
  cases op with
  | submit i answer => simp [isSubmitOp] at hop
  | start learner wId =>
    simp only [applyOp, startAttempt]
    cases hw : getWorkout cat wId with
    | none => exact ⟨b, h, hb⟩
    | some w =>
      cases hf : findOpen learner wId s.attempts with
      | some p =>
        obtain ⟨k, c⟩ := p
        exact ⟨b, h, hb⟩
      | none => exact ⟨b, lookupA_append_left attemptId b _ s.attempts h, hb⟩
  | hint i =>
    simp only [applyOp, recordHint]
    cases hl : lookupA i s.attempts with
    | none => exact ⟨b, h, hb⟩
    | some c =>
      simp only []
      by_cases hcs : c.endTime.isSome = true
      · rw [if_pos hcs]
        exact ⟨b, h, hb⟩
      · rw [if_neg hcs]
        by_cases hid : i = attemptId
        · subst hid
          rw [h] at hl
          cases hl
          refine ⟨_, lookupA_setA_self i _ s.attempts b h, ?_⟩
          exact hb
        · refine ⟨b, ?_, hb⟩
          show lookupA attemptId (setA i _ s.attempts) = some b
          rw [lookupA_setA_ne attemptId i _ hid s.attempts]
          exact h

/-- C4: once `submitAnswer` succeeds on an attempt id, every
subsequent `submitAnswer` or `recordHint` on that id — after any
further sequence of requests — fails with InvalidState; and no
operation other than a submit ever closes an open attempt, so
open → closed is the only, one-way transition and is triggered only by
`submitAnswer`. -/
theorem submitAnswer_one_way (cat : List Workout) (s s₁ : LedgerState)
    (attemptId : Nat) (answer : String) (a : WorkoutAttempt)
    (h : submitAnswer s attemptId answer = .ok (s₁, a)) :
    (∀ (tail : List WOp) (answer' : String),
      submitAnswer (runFrom cat s₁ tail) attemptId answer' =
        .error .invalidState ∧
      recordHint (runFrom cat s₁ tail) attemptId = .error .invalidState) ∧
    (∀ (s' : LedgerState) (op : WOp) (b : WorkoutAttempt),
      isSubmitOp op = false →
      lookupA attemptId s'.attempts = some b → isClosed b = false →
      ∃ b', lookupA attemptId (applyOp cat s' op).attempts = some b' ∧
        isClosed b' = false) := by
  constructor
  · unfold submitAnswer at h
    cases hl : lookupA attemptId s.attempts with
    | none => rw [hl] at h; exact Except.noConfusion h
    | some a0 =>
      rw [hl] at h
      simp only [] at h
      by_cases hcs : a0.endTime.isSome = true
      · rw [if_pos hcs] at h
        exact Except.noConfusion h
      · rw [if_neg hcs] at h
        intro tail answer'
        have hs₁ : s₁.attempts =
            setA attemptId
              { a0 with
                  endTime := some s.clock,
                  submittedAnswer := some answer,
                  score := (score a0.workout answer a0.hintsUsed).1,
                  correct := (score a0.workout answer a0.hintsUsed).2 }
              s.attempts := by
          cases h; rfl
        have hlook : lookupA attemptId s₁.attempts =
            some { a0 with
                    endTime := some s.clock,
                    submittedAnswer := some answer,
                    score := (score a0.workout answer a0.hintsUsed).1,
                    correct := (score a0.workout answer a0.hintsUsed).2 } := by
          rw [hs₁]
          exact lookupA_setA_self attemptId _ s.attempts a0 hl
        obtain ⟨b, hbl, hbc⟩ := closed_persists_runFrom cat tail s₁
          attemptId _ hlook rfl
        have hbs : b.endTime.isSome = true := hbc
        constructor
        · simp [submitAnswer, hbl, hbs]
        · simp [recordHint, hbl, hbs]
  · intro s' op b hop hl hb
    exact open_persists_applyOp cat s' op attemptId b hop hl hb

/-- Witness for C4: after the sample submit closes attempt 0, a second
submit after an intervening hint request fails with InvalidState. -/
theorem submitAnswer_one_way_witness :
    submitAnswer (runFrom sampleCatalog sampleClosedState [WOp.hint 0])
      0 "C" = .error .invalidState :=
  ((submitAnswer_one_way sampleCatalog sampleStarted sampleClosedState
      0 "B" sampleClosedAttempt rfl).1 [WOp.hint 0] "C").1

/- Supporting lemmas on the progress-row store. -/

lemma lookupRow_setRow_self (k : ProgKey) (r : ProgressRow) :
    ∀ m, lookupRow k (setRow k r m) = some r := by
  intro m
  induction m with
  | nil => simp [setRow, lookupRow]
  | cons p rest ih =>
    obtain ⟨k', r'⟩ := p
    by_cases hk : k' = k
    · simp [setRow, if_pos hk, lookupRow]
    · simp only [setRow, if_neg hk, lookupRow, if_neg hk]
      exact ih

lemma lookupRow_setRow_ne (k k' : ProgKey) (r : ProgressRow)
    (hne : k' ≠ k) :
    ∀ m, lookupRow k' (setRow k r m) = lookupRow k' m := by
  intro m
  induction m with
  | nil =>
    have hk : ¬ k = k' := fun h => hne h.symm
    simp [setRow, lookupRow, hk]
  | cons p rest ih =>
    obtain ⟨k0, r0⟩ := p
    by_cases hk : k0 = k
    · have hk0 : ¬ k = k' := fun h => hne h.symm
      have hk0' : ¬ k0 = k' := by rw [hk]; exact hk0
      simp [setRow, if_pos hk, lookupRow, if_neg hk0, if_neg hk0']
    · simp only [setRow, if_neg hk, lookupRow]
      by_cases hk' : k0 = k'
      · simp [if_pos hk']
      · simp only [if_neg hk']
        exact ih

/-- C7: for a newly closed attempt, `recordCompletion` upserts exactly
the row keyed by (learner, workout.type, workout.difficulty,
workout.level): the attempt count grows by one, the correct count
grows by one iff the attempt was correct, the average becomes
(oldAvg * oldCount + newScore) / newCount, the duration (end − start)
is added to the total time, last-activity becomes the end timestamp,
and every other key's row is untouched. -/
theorem recordCompletion_upsert (m : List (ProgKey × ProgressRow))
    (a : WorkoutAttempt) (e : Nat) (he : a.endTime = some e) :
    lookupRow (progKey a) (recordCompletion a m) =
      some { count := ((lookupRow (progKey a) m).getD zeroRow).count + 1,
             correctCount :=
               ((lookupRow (progKey a) m).getD zeroRow).correctCount +
                 (if a.correct then 1 else 0),
             averageScore :=
               (((lookupRow (progKey a) m).getD zeroRow).averageScore *
                   (((lookupRow (progKey a) m).getD zeroRow).count : ℚ) +
                 (a.score : ℚ)) /
                 ((((lookupRow (progKey a) m).getD zeroRow).count : ℚ) + 1),
             totalTimeSpent :=
               ((lookupRow (progKey a) m).getD zeroRow).totalTimeSpent +
                 (e - a.startTime),
             lastActivity := e } ∧
    ∀ k', k' ≠ progKey a →
      lookupRow k' (recordCompletion a m) = lookupRow k' m := by
  constructor
  · simp only [recordCompletion, he, Option.getD_some]
    exact lookupRow_setRow_self _ _ m
  · intro k' hk
    simp only [recordCompletion]
    exact lookupRow_setRow_ne _ k' _ hk m

/-- Witness for C7: three closed attempts scoring 90, 0, 70 in one
bucket yield count 3, correct count 2 and average 160/3, whose
two-decimal rendering is 53.33. -/
theorem recordCompletion_upsert_witness :
    lookupRow (progKey sampleA3)
        (recordCompletion sampleA3
          (recordCompletion sampleA2 (recordCompletion sampleA1 []))) =
      some ⟨3, 2, 160 / 3, 3, 5⟩ ∧
    ⌊(160 : ℚ) / 3 * 100⌋ = 5333 :=
  ⟨(recordCompletion_upsert
      (recordCompletion sampleA2 (recordCompletion sampleA1 []))
      sampleA3 5 rfl).1.trans (by
        norm_num [recordCompletion, lookupRow, setRow, zeroRow, progKey,
          sampleA1, sampleA2, sampleA3, sampleWorkout]),
   by norm_num⟩

/- Supporting lemmas for the replay equivalence: sorting. -/

lemma attemptsOf_eq_filter (learner : String) :
    ∀ l, attemptsOf learner l =
      l.filter (fun a => decide (a.learner = learner)) := by
  intro l
  induction l with
  | nil => rfl
  | cons a rest ih =>
    by_cases h : a.learner = learner
    · simp [attemptsOf, if_pos h, List.filter_cons, h, ih]
    · simp [attemptsOf, if_neg h, List.filter_cons, h, ih]

lemma sortByEnd_perm (l : List WorkoutAttempt) : (sortByEnd l).Perm l :=
  List.perm_insertionSort _ l

lemma sortByEnd_sorted (l : List WorkoutAttempt) :
    (sortByEnd l).Pairwise (fun a b => endKey a ≤ endKey b) :=
  List.sorted_insertionSort _ l

lemma perm_sorted_strict_eq :
    ∀ (l₁ l₂ : List WorkoutAttempt), l₁.Perm l₂ →
      l₁.Pairwise (fun a b => endKey a ≤ endKey b) →
      l₂.Pairwise (fun a b => endKey a < endKey b) →
      l₁ = l₂ := by
  intro l₁
  induction l₁ with
  | nil =>
    intro l₂ hp _ _
    exact (List.Perm.eq_nil hp.symm).symm
  | cons x xs ih =>
    intro l₂ hp h₁ h₂
    cases l₂ with
    | nil => exact List.noConfusion (List.Perm.eq_nil hp)
    | cons y ys =>
      have hxy : x = y := by
        have hxmem : x ∈ y :: ys := hp.subset (List.mem_cons_self x xs)
        rcases List.mem_cons.mp hxmem with h | hxys
        · exact h
        · have hyx : endKey y < endKey x :=
            (List.pairwise_cons.mp h₂).1 x hxys
          have hymem : y ∈ x :: xs := hp.symm.subset (List.mem_cons_self y ys)
          rcases List.mem_cons.mp hymem with h' | hyxs
          · exact h'.symm
          · have hle : endKey x ≤ endKey y :=
              (List.pairwise_cons.mp h₁).1 y hyxs
            omega
      subst hxy
      have hp' : xs.Perm ys := hp.cons_inv
      rw [ih ys hp' (List.pairwise_cons.mp h₁).2 (List.pairwise_cons.mp h₂).2]

/- Supporting lemmas for the replay equivalence: per-learner
restriction commutes with the progress fold. -/

lemma lookupRow_rowsFor (learner : String) (k : ProgKey)
    (hk : k.learner = learner) :
    ∀ m, lookupRow k (rowsFor learner m) = lookupRow k m := by
  intro m
  induction m with
  | nil => rfl
  | cons p rest ih =>
    obtain ⟨k0, r0⟩ := p
    by_cases h0 : k0 = k
    · subst h0
      simp [rowsFor, if_pos hk, lookupRow]
    · by_cases hl0 : k0.learner = learner
      · simp only [rowsFor, if_pos hl0, lookupRow, if_neg h0]
        exact ih
      · simp only [rowsFor, if_neg hl0, lookupRow, if_neg h0]
        exact ih

lemma rowsFor_setRow_same (learner : String) (k : ProgKey)
    (r : ProgressRow) (hk : k.learner = learner) :
    ∀ m, rowsFor learner (setRow k r m) =
      setRow k r (rowsFor learner m) := by
  intro m
  induction m with
  | nil => simp [setRow, rowsFor, if_pos hk]
  | cons p rest ih =>
    obtain ⟨k0, r0⟩ := p
    by_cases h0 : k0 = k
    · subst h0
      simp [setRow, rowsFor, if_pos hk]
    · by_cases hl0 : k0.learner = learner
      · simp only [setRow, if_neg h0, rowsFor, if_pos hl0]
        rw [ih]
      · simp only [setRow, if_neg h0, rowsFor, if_neg hl0]
        exact ih

lemma rowsFor_setRow_other (learner : String) (k : ProgKey)
    (r : ProgressRow) (hk : ¬ k.learner = learner) :
    ∀ m, rowsFor learner (setRow k r m) = rowsFor learner m := by
  intro m
  induction m with
  | nil => simp [setRow, rowsFor, if_neg hk]
  | cons p rest ih =>
    obtain ⟨k0, r0⟩ := p
    by_cases h0 : k0 = k
    · subst h0
      simp [setRow, rowsFor, if_neg hk]
    · by_cases hl0 : k0.learner = learner
      · simp only [setRow, if_neg h0, rowsFor, if_pos hl0]
        rw [ih]
      · simp only [setRow, if_neg h0, rowsFor, if_neg hl0]
        exact ih

lemma rowsFor_recordCompletion_same (learner : String)
    (a : WorkoutAttempt) (ha : a.learner = learner)
    (m : List (ProgKey × ProgressRow)) :
    rowsFor learner (recordCompletion a m) =
      recordCompletion a (rowsFor learner m) := by
  have hk : (progKey a).learner = learner := ha
  simp only [recordCompletion]
  rw [lookupRow_rowsFor learner (progKey a) hk m]
  exact rowsFor_setRow_same learner _ _ hk m

lemma rowsFor_recordCompletion_other (learner : String)
    (a : WorkoutAttempt) (ha : ¬ a.learner = learner)
    (m : List (ProgKey × ProgressRow)) :
    rowsFor learner (recordCompletion a m) = rowsFor learner m := by
  simp only [recordCompletion]
  exact rowsFor_setRow_other learner _ _ ha m

lemma rowsFor_fold (learner : String) :
    ∀ (xs : List WorkoutAttempt) (m : List (ProgKey × ProgressRow)),
      rowsFor learner (xs.foldl (fun m a => recordCompletion a m) m) =
        (attemptsOf learner xs).foldl (fun m a => recordCompletion a m)
          (rowsFor learner m) := by
  intro xs
  induction xs with
  | nil => intro m; rfl
  | cons a rest ih =>
    intro m
    by_cases ha : a.learner = learner
    · simp only [List.foldl_cons, attemptsOf, if_pos ha]
      rw [ih, rowsFor_recordCompletion_same learner a ha m]
    · simp only [List.foldl_cons, attemptsOf, if_neg ha]
      rw [ih, rowsFor_recordCompletion_other learner a ha m]

/- Supporting lemmas for the replay equivalence: the invariant holds
along every run. -/

lemma inv_init : Inv initState := by
  refine ⟨rfl, List.Perm.refl _, List.Pairwise.nil, ?_⟩
  intro a ha
  exact absurd ha (List.not_mem_nil a)

lemma inv_tick (s : LedgerState) (hInv : Inv s) : Inv (tick s) := by
  obtain ⟨hprog, hperm, hsort, hbound⟩ := hInv
  exact ⟨hprog, hperm, hsort, fun a ha => Nat.lt_succ_of_lt (hbound a ha)⟩

lemma inv_submit_core (s : LedgerState) (i : Nat)
    (c cl : WorkoutAttempt) (hl : lookupA i s.attempts = some c)
    (hopen : isClosed c = false) (hcl : isClosed cl = true)
    (hend : endKey cl = s.clock) (hInv : Inv s) :
    Inv { clock := s.clock + 1, nextId := s.nextId,
          attempts := setA i cl s.attempts,
          progress := recordCompletion cl s.progress,
          recentClosed := s.recentClosed ++ [cl] } := by
  refine ⟨?_, ?_, ?_, ?_⟩
  · show recordCompletion cl s.progress =
      (s.recentClosed ++ [cl]).foldl (fun m a => recordCompletion a m) []
    rw [List.foldl_append, ← hInv.progEq]
    rfl
  · show (closedOf (setA i cl s.attempts)).Perm (s.recentClosed ++ [cl])
    refine (closedOf_setA_closed i cl hcl s.attempts c hl hopen).trans ?_
    refine (List.Perm.cons cl hInv.permClosed).trans ?_
    exact (List.perm_append_singleton cl s.recentClosed).symm
  · show (s.recentClosed ++ [cl]).Pairwise (fun a b => endKey a < endKey b)
    rw [List.pairwise_append]
    refine ⟨hInv.sortedClosed, List.pairwise_singleton _ _, ?_⟩
    intro a ha b hb
    rw [List.mem_singleton.mp hb, hend]
    exact hInv.bounded a ha
  · intro a ha
    rcases List.mem_append.mp ha with h | h
    · exact Nat.lt_succ_of_lt (hInv.bounded a h)
    · rw [List.mem_singleton.mp h, hend]
      exact Nat.lt_succ_self s.clock

lemma inv_applyOp (cat : List Workout) (s : LedgerState) (op : WOp)
    (hInv : Inv s) : Inv (applyOp cat s op) := by
  cases op with
  | start learner wId =>
    simp only [applyOp, startAttempt]
    refine inv_tick _ ?_
    cases hw : getWorkout cat wId with
    | none => exact hInv
    | some w =>
      cases hf : findOpen learner wId s.attempts with
      | some p =>
        obtain ⟨k, b⟩ := p
        exact hInv
      | none =>
        refine ⟨hInv.progEq, ?_, hInv.sortedClosed, hInv.bounded⟩
        show (closedOf (s.attempts ++ [(s.nextId, _)])).Perm s.recentClosed
        rw [closedOf_append]
        simpa [closedOf, isClosed] using hInv.permClosed
  | hint i =>
    simp only [applyOp, recordHint]
    refine inv_tick _ ?_
    cases hl : lookupA i s.attempts with
    | none => exact hInv
    | some c =>
      simp only []
      by_cases hcs : c.endTime.isSome = true
      · rw [if_pos hcs]
        exact hInv
      · rw [if_neg hcs]
        simp only [Bool.not_eq_true] at hcs
        have hopen : isClosed c = false := hcs
        refine ⟨hInv.progEq, ?_, hInv.sortedClosed, hInv.bounded⟩
        show (closedOf (setA i _ s.attempts)).Perm s.recentClosed
        rw [closedOf_setA_open i { c with hintsUsed := c.hintsUsed + 1 }
          hopen s.attempts c hl hopen]
        exact hInv.permClosed
  | submit i answer =>
    simp only [applyOp, submitAnswer]
    cases hl : lookupA i s.attempts with
    | none => exact inv_tick _ hInv
    | some c =>
      simp only []
      by_cases hcs : c.endTime.isSome = true
      · rw [if_pos hcs]
        exact inv_tick _ hInv
      · rw [if_neg hcs]
        simp only [Bool.not_eq_true] at hcs
        have hopen : isClosed c = false := hcs
        exact inv_submit_core s i c
          { c with endTime := some s.clock,
                   submittedAnswer := some answer,
                   score := (score c.workout answer c.hintsUsed).1,
                   correct := (score c.workout answer c.hintsUsed).2 }
          hl hopen rfl rfl hInv

lemma inv_runFrom (cat : List Workout) :
    ∀ (ops : List WOp) (s : LedgerState), Inv s →
      Inv (runFrom cat s ops) := by
  intro ops
  induction ops with
  | nil => intro s h; exact h
  | cons op rest ih =>
    intro s h
    exact ih (applyOp cat s op) (inv_applyOp cat s op h)

lemma inv_run (cat : List Workout) (ops : List WOp) : Inv (run cat ops) :=
  inv_runFrom cat ops initState inv_init

/-- C2: for every catalog, every sequence of requests, and every
learner, `getProgress` computed through the incremental
`recordCompletion` updates equals the result of discarding all
progress state and replaying every closed attempt of that learner in
end-timestamp order. -/
theorem getProgress_replay_equiv (cat : List Workout) (ops : List WOp)
    (learner : String) :
    getProgress (run cat ops) learner =
      replayProgress learner (closedAttempts (run cat ops)) := by
  obtain ⟨hprog, hperm, hsort, hbound⟩ := inv_run cat ops
  have hpermL : (attemptsOf learner (closedAttempts (run cat ops))).Perm
      (attemptsOf learner (run cat ops).recentClosed) := by
    rw [attemptsOf_eq_filter, attemptsOf_eq_filter]
    exact hperm.filter _
  have hsortL : (attemptsOf learner (run cat ops).recentClosed).Pairwise
      (fun a b => endKey a < endKey b) := by
    rw [attemptsOf_eq_filter]
    exact List.Pairwise.sublist (List.filter_sublist _) hsort
  have hkey : sortByEnd (attemptsOf learner (closedAttempts (run cat ops))) =
      attemptsOf learner (run cat ops).recentClosed := by
    apply perm_sorted_strict_eq
    · exact (sortByEnd_perm _).trans hpermL
    · exact sortByEnd_sorted _
    · exact hsortL
  show rowsFor learner (run cat ops).progress = _
  rw [hprog]
  unfold replayProgress
  rw [hkey, rowsFor_fold]
  rfl

end TEC
